import Mathlib

/- Shallow embedding of the technical-indicator engine in
   `app/services/technical_service.py` (class `TechnicalService`).
   Price values are modelled as rationals; the Bollinger-band computation,
   which takes a square root (`np.std`), is modelled over the reals.
   Python's `round(x, nd)` (round half to even) is modelled by `pround`;
   operations that can raise a Python exception (comparing `None` with `<`,
   `max`/`min` of an empty sequence, indexing `[-1]` on an empty list) are
   modelled in the `Except String` monad, the string naming the exception. -/

/-- Round half to even of a value to an integer, modelling Python's `round`. -/
def rhe {α : Type} [LinearOrderedField α] [FloorRing α] (x : α) : ℤ :=
  if Int.fract x < 1 / 2 then ⌊x⌋
  else if 1 / 2 < Int.fract x then ⌊x⌋ + 1
  else if ⌊x⌋ % 2 = 0 then ⌊x⌋ else ⌊x⌋ + 1

/-- Python `round(x, nd)`: round half to even at `nd` decimal digits. -/
def pround {α : Type} [LinearOrderedField α] [FloorRing α] (nd : ℕ) (x : α) : α :=
  ((rhe (x * (10 : α) ^ nd) : ℤ) : α) / (10 : α) ^ nd

/-- `TechnicalService.calculate_ma(prices, period)`: the simple moving average,
with `None` for the first `period - 1` indices.  The loop
`for i in range(period - 1, len(prices))` appending
`sum(prices[i - period + 1 : i + 1]) / period` is written as a map over
`List.range' (period - 1) (len - (period - 1))`. -/
def calculate_ma (prices : List ℚ) (period : ℕ) : List (Option ℚ) :=
  if prices.length < period then List.replicate prices.length none
  else
    List.replicate (period - 1) (none : Option ℚ) ++
      (List.range' (period - 1) (prices.length - (period - 1))).map
        (fun i => some (((prices.drop (i + 1 - period)).take period).sum / period))

/-- The EMA accumulation loop of `calculate_ema`:
`for i in range(period, len(prices)): ema.append((prices[i] - ema[-1]) * multiplier + ema[-1])`. -/
def emaLoop (m : ℚ) (prev : ℚ) : List ℚ → List ℚ
  | [] => []
  | x :: xs => ((x - prev) * m + prev) :: emaLoop m ((x - prev) * m + prev) xs

/-- `TechnicalService.calculate_ema(prices, period)`: seeded with the simple
average of the first `period` prices, then the EMA recurrence with
multiplier `2 / (period + 1)`. -/
def calculate_ema (prices : List ℚ) (period : ℕ) : List (Option ℚ) :=
  if prices.length < period then List.replicate prices.length none
  else
    List.replicate (period - 1) (none : Option ℚ) ++
      (((prices.take period).sum / period) ::
        emaLoop (2 / ((period : ℚ) + 1)) ((prices.take period).sum / period)
          (prices.drop period)).map some

/-- The `dif` array of `calculate_macd`: `ema_fast[i] - ema_slow[i]` where both
are defined, else `None` (source lines 60-70). -/
def macdDif (prices : List ℚ) (fast slow : ℕ) : List (Option ℚ) :=
  (List.range prices.length).map fun i =>
    match (calculate_ema prices fast).getD i none, (calculate_ema prices slow).getD i none with
    | some a, some b => some (a - b)
    | _, _ => none

/-- The `dea` array of `calculate_macd` (source lines 72-79): the defined `dif`
values are compacted (`dif_values = [v for v in dif if v is not None]`), the
9-period EMA is taken on the compacted list, and the result is re-expanded to
the original length by left-padding with `None`
(`dea = [None] * (len(dif) - len(dea_values)) + dea_values`). -/
def macdDea (prices : List ℚ) (fast slow signal : ℕ) : List (Option ℚ) :=
  let dif := macdDif prices fast slow
  let difValues := dif.filterMap id
  if signal ≤ difValues.length then
    List.replicate (dif.length - (calculate_ema difValues signal).length) (none : Option ℚ) ++
      calculate_ema difValues signal
  else List.replicate prices.length none

/-- `TechnicalService._get_macd_signals(dif, dea, macd)`: the per-index signal
labels; `i == 0` or any `None` among `dif[i], dea[i], dif[i-1], dea[i-1]`
yields `neutral`. -/
def getMacdSignals (dif dea macdHist : List (Option ℚ)) : List String :=
  (List.range dif.length).map fun i =>
    if i = 0 ∨ dif.getD i none = none ∨ dea.getD i none = none ∨
        dif.getD (i - 1) none = none ∨ dea.getD (i - 1) none = none then "neutral"
    else
      let a := (dif.getD i none).getD 0
      let b := (dea.getD i none).getD 0
      let a1 := (dif.getD (i - 1) none).getD 0
      let b1 := (dea.getD (i - 1) none).getD 0
      if a1 < b1 ∧ b < a then "golden_cross"
      else if b1 < a1 ∧ a < b then "death_cross"
      else if b < a then "bullish"
      else "bearish"

structure MacdResult where
  dif : List (Option ℚ)
  dea : List (Option ℚ)
  macd : List (Option ℚ)
  signal : List String
deriving DecidableEq, Repr

/-- `TechnicalService.calculate_macd(prices, 12, 26, 9)`: early all-`None`
return when `len(prices) < slow + signal`, otherwise DIF, DEA, the histogram
`(dif - dea) * 2`, and the signal labels; numeric outputs rounded to 4
decimals. -/
def calculate_macd (prices : List ℚ) (fast slow signal : ℕ) : MacdResult :=
  if prices.length < slow + signal then
    ⟨List.replicate prices.length none, List.replicate prices.length none,
     List.replicate prices.length none, List.replicate prices.length "neutral"⟩
  else
    let dif := macdDif prices fast slow
    let dea := macdDea prices fast slow signal
    let macdHist := (List.range prices.length).map fun i =>
      match dif.getD i none, dea.getD i none with
      | some a, some b => some ((a - b) * 2)
      | _, _ => none
    ⟨dif.map (Option.map (pround 4)), dea.map (Option.map (pround 4)),
     macdHist.map (Option.map (pround 4)), getMacdSignals dif dea macdHist⟩

/-- Python comparison `a < b` on two optional floats: raises `TypeError` when
either side is `None`. -/
def optLT (a b : Option ℚ) : Except String Bool :=
  match a, b with
  | some x, some y => .ok (decide (x < y))
  | _, _ => .error "TypeError"

/-- Python comparison `a > b` on two optional floats: raises `TypeError` when
either side is `None`. -/
def optGT (a b : Option ℚ) : Except String Bool :=
  match a, b with
  | some x, some y => .ok (decide (y < x))
  | _, _ => .error "TypeError"

/-- Python `max(seq)`: raises `ValueError` on an empty sequence. -/
def listMax (l : List ℚ) : Except String ℚ :=
  match l.max? with
  | some v => .ok v
  | none => .error "ValueError"

/-- Python `min(seq)`: raises `ValueError` on an empty sequence. -/
def listMin (l : List ℚ) : Except String ℚ :=
  match l.min? with
  | some v => .ok v
  | none => .error "ValueError"

/-- One entry of the `rsv` list of `calculate_kdj`: `None` before index
`period - 1`, else `(close[i] - lowest) / (highest - lowest) * 100` over the
window `[i - period + 1, i]`, with the flat-window case `rsv = 50.0`.
The slice bound `i - period + 1` is written `i + 1 - period` for truncated
natural subtraction. -/
def rsvAt (high low close : List ℚ) (period : ℕ) (i : ℕ) : Except String (Option ℚ) :=
  if i < period - 1 then .ok none
  else do
    let highest ← listMax ((high.drop (i + 1 - period)).take period)
    let lowest ← listMin ((low.drop (i + 1 - period)).take period)
    if highest = lowest then .ok (some 50)
    else .ok (some ((close.getD i 0 - lowest) / (highest - lowest) * 100))

/-- The K (and D) accumulation loop of `calculate_kdj`: append
`(2/3) * prev + (1/3) * v` when the driving value is defined, else repeat the
previous value.  Used once over `rsv` (for K) and once over `k` (for D). -/
def kdSmooth (prev : ℚ) : List (Option ℚ) → List ℚ
  | [] => []
  | some v :: rs => ((2 / 3) * prev + (1 / 3) * v) :: kdSmooth ((2 / 3) * prev + (1 / 3) * v) rs
  | none :: rs => prev :: kdSmooth prev rs

/-- The signal label of `_get_kdj_signals` at one index `i`.  The guard only
checks `i == 0`, `k[i] is None`, `d[i] is None`; the crossover comparisons then
read `k[i-1]` and `d[i-1]`, which raise `TypeError` when those are `None`
(there is no `i-1` guard, unlike `_get_macd_signals`). -/
def kdjSignalAt (k d : List (Option ℚ)) (i : ℕ) : Except String String :=
  if i = 0 ∨ k.getD i none = none ∨ d.getD i none = none then .ok "neutral"
  else
    let ki := (k.getD i none).getD 0
    let di := (d.getD i none).getD 0
    if 80 < ki ∧ 80 < di then
      (optGT (k.getD (i - 1) none) (d.getD (i - 1) none)).bind fun c =>
        if c = true ∧ ki < di then .ok "overbought_cross" else .ok "overbought"
    else if ki < 20 ∧ di < 20 then
      (optLT (k.getD (i - 1) none) (d.getD (i - 1) none)).bind fun c =>
        if c = true ∧ di < ki then .ok "oversold_cross" else .ok "oversold"
    else
      (optLT (k.getD (i - 1) none) (d.getD (i - 1) none)).bind fun c =>
        if c = true ∧ di < ki then .ok "golden_cross"
        else
          (optGT (k.getD (i - 1) none) (d.getD (i - 1) none)).bind fun c2 =>
            if c2 = true ∧ ki < di then .ok "death_cross" else .ok "neutral"

/-- `TechnicalService._get_kdj_signals(k, d, j)` (`j` is accepted and unused,
as in the source): the loop `for i in range(len(k))`. -/
def getKdjSignals (k d j : List (Option ℚ)) : Except String (List String) :=
  (List.range k.length).mapM (kdjSignalAt k d)

structure KdjResult where
  k : List (Option ℚ)
  d : List (Option ℚ)
  j : List (Option ℚ)
  signal : List String
deriving DecidableEq, Repr

/-- `TechnicalService.calculate_kdj(high, low, close, 9, 3, 3)` (`k_period` and
`d_period` are accepted and unused, as in the source).  K and D are seeded with
`50.0` at index `period - 1` after `period - 1` leading `None`s; J is
`3k - 2d` where both are defined; K/D/J are rounded to 2 decimals. -/
def calculate_kdj (high low close : List ℚ) (period kPeriod dPeriod : ℕ) :
    Except String KdjResult :=
  if close.length < period then
    .ok ⟨List.replicate close.length none, List.replicate close.length none,
         List.replicate close.length none, List.replicate close.length "neutral"⟩
  else do
    let rsv ← (List.range close.length).mapM (rsvAt high low close period)
    let k := List.replicate (period - 1) (none : Option ℚ) ++
      ((50 : ℚ) :: kdSmooth 50 (rsv.drop period)).map some
    let d := List.replicate (period - 1) (none : Option ℚ) ++
      ((50 : ℚ) :: kdSmooth 50 (k.drop period)).map some
    let j := (List.range close.length).map fun i =>
      match k.getD i none, d.getD i none with
      | some kv, some dv => some (3 * kv - 2 * dv)
      | _, _ => none
    let sigs ← getKdjSignals k d j
    .ok ⟨k.map (Option.map (pround 2)), d.map (Option.map (pround 2)),
         j.map (Option.map (pround 2)), sigs⟩

/-- The `changes` list of `calculate_rsi`: `changes[0] = 0`,
`changes[i] = prices[i] - prices[i-1]`. -/
def rsiChanges (prices : List ℚ) : List ℚ :=
  0 :: List.zipWith (fun a b => a - b) prices.tail prices

/-- `rsi = 100.0` when the average loss is zero, else
`100 - 100 / (1 + avg_gain / avg_loss)`. -/
def rsiVal (avgGain avgLoss : ℚ) : ℚ :=
  if avgLoss = 0 then 100 else 100 - 100 / (1 + avgGain / avgLoss)

/-- The Wilder smoothing loop of `calculate_rsi`
(`for i in range(period + 1, len(prices))`), keeping the running
`(avg_loss, rsi)` pair produced at each step. -/
def rsiLoop (period : ℕ) (avgGain avgLoss : ℚ) : List ℚ → List ℚ → List (ℚ × ℚ)
  | g :: gs, l :: ls =>
    ((avgLoss * ((period : ℚ) - 1) + l) / period,
      rsiVal ((avgGain * ((period : ℚ) - 1) + g) / period)
        ((avgLoss * ((period : ℚ) - 1) + l) / period)) ::
      rsiLoop period ((avgGain * ((period : ℚ) - 1) + g) / period)
        ((avgLoss * ((period : ℚ) - 1) + l) / period) gs ls
  | _, _ => []

/-- The `gains` list of `calculate_rsi`: `[max(0, c) for c in changes]`. -/
def rsiGains (prices : List ℚ) : List ℚ :=
  (rsiChanges prices).map fun c => max 0 c

/-- The `losses` list of `calculate_rsi`: `[abs(min(0, c)) for c in changes]`. -/
def rsiLosses (prices : List ℚ) : List ℚ :=
  (rsiChanges prices).map fun c => |min 0 c|

/-- The seed `avg_gain = sum(gains[1:period+1]) / period` of `calculate_rsi`. -/
def rsiSeedGain (prices : List ℚ) (period : ℕ) : ℚ :=
  (((rsiGains prices).drop 1).take period).sum / period

/-- The seed `avg_loss = sum(losses[1:period+1]) / period` of `calculate_rsi`. -/
def rsiSeedLoss (prices : List ℚ) (period : ℕ) : ℚ :=
  (((rsiLosses prices).drop 1).take period).sum / period

/-- The smoothing loop of `calculate_rsi` started from the seed averages over
the remaining gains/losses (`for i in range(period + 1, len(prices))`). -/
def rsiPairs (prices : List ℚ) (period : ℕ) : List (ℚ × ℚ) :=
  rsiLoop period (rsiSeedGain prices period) (rsiSeedLoss prices period)
    ((rsiGains prices).drop (period + 1)) ((rsiLosses prices).drop (period + 1))

/-- The unrounded `rsi` list of `calculate_rsi`: `period` leading `None`s, the
seed RSI value, then the values produced by the smoothing loop. -/
def rsiRaw (prices : List ℚ) (period : ℕ) : List (Option ℚ) :=
  List.replicate period (none : Option ℚ) ++
    (rsiVal (rsiSeedGain prices period) (rsiSeedLoss prices period) ::
      (rsiPairs prices period).map Prod.snd).map some

/-- The running `avg_loss` values of `calculate_rsi`, one per defined RSI
index (the seed average, then one per smoothing step). -/
def rsiAvgLosses (prices : List ℚ) (period : ℕ) : List ℚ :=
  rsiSeedLoss prices period :: (rsiPairs prices period).map Prod.fst

/-- The per-entry signal rule of `calculate_rsi` (computed on the unrounded
values, as in the source). -/
def rsiSigOf : Option ℚ → String
  | none => "neutral"
  | some r =>
    if 70 ≤ r then "overbought"
    else if r ≤ 30 then "oversold"
    else if 50 ≤ r then "bullish"
    else "bearish"

structure RsiResult where
  rsi : List (Option ℚ)
  signal : List String
deriving DecidableEq, Repr

/-- `TechnicalService.calculate_rsi(prices, 14)`: early all-`None` return when
`len(prices) < period + 1`; values rounded to 2 decimals. -/
def calculate_rsi (prices : List ℚ) (period : ℕ) : RsiResult :=
  if prices.length < period + 1 then
    ⟨List.replicate prices.length none, List.replicate prices.length "neutral"⟩
  else
    ⟨(rsiRaw prices period).map (Option.map (pround 2)),
     (rsiRaw prices period).map rsiSigOf⟩

/-- `np.std(window)`: the population standard deviation
`sqrt(mean((x - mean(window))^2))`. -/
noncomputable def npStd (w : List ℝ) : ℝ :=
  Real.sqrt ((w.map fun x => (x - w.sum / w.length) ^ 2).sum / w.length)

/-- The Bollinger window at index `i`: `prices[i - period + 1 : i + 1]`
(the slice bound written `i + 1 - period` for truncated subtraction). -/
def bollWindow (prices : List ℝ) (period i : ℕ) : List ℝ :=
  (prices.drop (i + 1 - period)).take period

structure BollResult where
  upper : List (Option ℝ)
  middle : List (Option ℝ)
  lower : List (Option ℝ)
  signal : List String

/-- `TechnicalService.calculate_boll(prices, 20, 2.0)`: middle band is the SMA
of the window, upper/lower are `ma ± std_dev * np.std(window)`; the signal is
computed from the unrounded bands and the price; bands rounded to 4 decimals. -/
noncomputable def calculate_boll (prices : List ℝ) (period : ℕ) (stdDev : ℝ) : BollResult :=
  if prices.length < period then
    ⟨List.replicate prices.length none, List.replicate prices.length none,
     List.replicate prices.length none, List.replicate prices.length "neutral"⟩
  else
    let upper := List.replicate (period - 1) (none : Option ℝ) ++
      (List.range' (period - 1) (prices.length - (period - 1))).map fun i =>
        some ((bollWindow prices period i).sum / period +
          stdDev * npStd (bollWindow prices period i))
    let middle := List.replicate (period - 1) (none : Option ℝ) ++
      (List.range' (period - 1) (prices.length - (period - 1))).map fun i =>
        some ((bollWindow prices period i).sum / period)
    let lower := List.replicate (period - 1) (none : Option ℝ) ++
      (List.range' (period - 1) (prices.length - (period - 1))).map fun i =>
        some ((bollWindow prices period i).sum / period -
          stdDev * npStd (bollWindow prices period i))
    let signals := (List.range prices.length).map fun i =>
      match upper.getD i none, middle.getD i none, lower.getD i none with
      | some u, some m, some l =>
        if u ≤ prices.getD i 0 then "overbought"
        else if prices.getD i 0 ≤ l then "oversold"
        else if m < prices.getD i 0 then "bullish"
        else "bearish"
      | _, _, _ => "neutral"
    ⟨upper.map (Option.map (pround 4)), middle.map (Option.map (pround 4)),
     lower.map (Option.map (pround 4)), signals⟩

/-- `xs[-1] if xs else "neutral"`: the latest signal of an array, `neutral`
for an empty array. -/
def lastStr (xs : List String) : String :=
  (xs.getLast?).getD "neutral"

/-- `xs[-1] if xs else None`: the latest value of an optional array. -/
def lastOpt {α : Type} (xs : List (Option α)) : Option α :=
  (xs.getLast?).getD none

/-- Python `f"{q:.1f}"` for the RSI value shown in a contributing entry:
the value rounded half to even to one decimal, rendered as text. -/
def fmt1 (q : ℚ) : String :=
  toString (rhe (q * 10) / 10) ++ "." ++ toString ((rhe (q * 10)) % 10).natAbs

structure SignalEntry where
  indicator : String
  signal : String
  type : String
deriving DecidableEq, Repr

/-- The MACD branch of `_get_latest_signals`: contributing entries and the
(bullish, bearish) increments. -/
def macdScore (s : String) : List SignalEntry × ℕ × ℕ :=
  if s = "golden_cross" then ([⟨"MACD", "金叉", "buy"⟩], 2, 0)
  else if s = "death_cross" then ([⟨"MACD", "死叉", "sell"⟩], 0, 2)
  else if s = "bullish" then ([], 1, 0)
  else if s = "bearish" then ([], 0, 1)
  else ([], 0, 0)

/-- The KDJ branch of `_get_latest_signals`. -/
def kdjScore (s : String) : List SignalEntry × ℕ × ℕ :=
  if s = "oversold_cross" then ([⟨"KDJ", "超卖金叉", "buy"⟩], 2, 0)
  else if s = "overbought_cross" then ([⟨"KDJ", "超买死叉", "sell"⟩], 0, 2)
  else if s = "golden_cross" then ([⟨"KDJ", "金叉", "buy"⟩], 1, 0)
  else if s = "death_cross" then ([⟨"KDJ", "死叉", "sell"⟩], 0, 1)
  else if s = "overbought" then ([⟨"KDJ", "超买", "warning"⟩], 0, 0)
  else if s = "oversold" then ([⟨"KDJ", "超卖", "warning"⟩], 0, 0)
  else ([], 0, 0)

/-- The RSI branch of `_get_latest_signals` (`v` is the latest RSI value,
defaulting to 50, used only in the entry text). -/
def rsiScore (s : String) (v : ℚ) : List SignalEntry × ℕ × ℕ :=
  if s = "overbought" then ([⟨"RSI", "超买(" ++ fmt1 v ++ ")", "sell"⟩], 0, 1)
  else if s = "oversold" then ([⟨"RSI", "超卖(" ++ fmt1 v ++ ")", "buy"⟩], 1, 0)
  else ([], 0, 0)

/-- The BOLL branch of `_get_latest_signals`: warning entries only, no score
change. -/
def bollScore (s : String) : List SignalEntry :=
  if s = "overbought" then [⟨"BOLL", "触及上轨", "warning"⟩]
  else if s = "oversold" then [⟨"BOLL", "触及下轨", "warning"⟩]
  else []

/-- The moving-average alignment branch of `_get_latest_signals`:
`if len(closes) > 0 and ma5[-1] is not None and ma10[-1] is not None`, then
the chained comparisons `close > ma5[-1] > ma10[-1]` (bullish alignment) and
`close < ma5[-1] < ma10[-1]` (bearish alignment).  `ma5[-1]` / `ma10[-1]` on
an empty list raise `IndexError`. -/
def maScore (ma5 ma10 : List (Option ℚ)) (closes : List ℚ) :
    Except String (List SignalEntry × ℕ × ℕ) :=
  if closes.length = 0 then .ok ([], 0, 0)
  else
    match ma5.getLast? with
    | none => .error "IndexError"
    | some none => .ok ([], 0, 0)
    | some (some m5) =>
      match ma10.getLast? with
      | none => .error "IndexError"
      | some none => .ok ([], 0, 0)
      | some (some m10) =>
        if m5 < closes.getLast?.getD 0 ∧ m10 < m5 then .ok ([⟨"均线", "多头排列", "buy"⟩], 1, 0)
        else if closes.getLast?.getD 0 < m5 ∧ m5 < m10 then
          .ok ([⟨"均线", "空头排列", "sell"⟩], 0, 1)
        else .ok ([], 0, 0)

structure LatestValues where
  macdDifV : Option ℚ
  macdDeaV : Option ℚ
  kdjK : Option ℚ
  kdjD : Option ℚ
  kdjJ : Option ℚ
  rsiV : Option ℚ
  bollUpper : Option ℝ
  bollMiddle : Option ℝ
  bollLower : Option ℝ

structure LatestSignals where
  signals : List SignalEntry
  bullishCount : ℕ
  bearishCount : ℕ
  overall : String
  overallColor : String
  latestValues : LatestValues

/-- `TechnicalService._get_latest_signals(macd, kdj, rsi, boll, ma5, ma10,
ma20, closes)` (`ma20` is accepted and unused, as in the source): scores the
five latest signals into bullish/bearish counters, then picks the overall
label by the threshold chain of source lines 489-503. -/
def getLatestSignals (macd : MacdResult) (kdj : KdjResult) (rsi : RsiResult)
    (boll : BollResult) (ma5 ma10 ma20 : List (Option ℚ)) (closes : List ℚ) :
    Except String LatestSignals := do
  let mb := macdScore (lastStr macd.signal)
  let kb := kdjScore (lastStr kdj.signal)
  let rsiValue : ℚ := match rsi.rsi.getLast? with
    | some (some v) => v
    | _ => 50
  let rb := rsiScore (lastStr rsi.signal) rsiValue
  let bb := bollScore (lastStr boll.signal)
  let mab ← maScore ma5 ma10 closes
  let bullish := mb.2.1 + kb.2.1 + rb.2.1 + mab.2.1
  let bearish := mb.2.2 + kb.2.2 + rb.2.2 + mab.2.2
  .ok
    { signals := mb.1 ++ kb.1 ++ rb.1 ++ bb ++ mab.1
      bullishCount := bullish
      bearishCount := bearish
      overall :=
        if bearish + 2 < bullish then "强烈看多"
        else if bearish < bullish then "偏多"
        else if bullish + 2 < bearish then "强烈看空"
        else if bullish < bearish then "偏空"
        else "中性"
      overallColor :=
        if bearish + 2 < bullish then "#52c41a"
        else if bearish < bullish then "#73d13d"
        else if bullish + 2 < bearish then "#f5222d"
        else if bullish < bearish then "#ff7875"
        else "#faad14"
      latestValues :=
        { macdDifV := lastOpt macd.dif
          macdDeaV := lastOpt macd.dea
          kdjK := lastOpt kdj.k
          kdjD := lastOpt kdj.d
          kdjJ := lastOpt kdj.j
          rsiV := lastOpt rsi.rsi
          bollUpper := lastOpt boll.upper
          bollMiddle := lastOpt boll.middle
          bollLower := lastOpt boll.lower } }

structure Kline where
  date : String
  «open» : ℚ
  high : ℚ
  low : ℚ
  close : ℚ
  volume : ℚ
deriving DecidableEq, Repr

structure AllPayload where
  dates : List String
  opens : List ℚ
  highs : List ℚ
  lows : List ℚ
  closes : List ℚ
  volumes : List ℚ
  macd : MacdResult
  kdj : KdjResult
  rsi : RsiResult
  boll : BollResult
  ma5 : List (Option ℚ)
  ma10 : List (Option ℚ)
  ma20 : List (Option ℚ)
  ma60 : List (Option ℚ)
  latestSignals : LatestSignals
  dataCount : ℕ

/-- The two possible returns of `calculate_all_indicators`: the error
dictionary `{"error": ...}` for short input, or the full result dictionary. -/
inductive AllResult where
  | errorDict (msg : String)
  | success (payload : AllPayload)

/-- `TechnicalService.calculate_all_indicators(kline_data)`: rejects series
shorter than 30 bars with the fixed error dictionary, otherwise extracts the
OHLCV columns and runs MACD, KDJ, RSI, BOLL, the MA5/10/20/60 lines and the
latest-signal summary.  The only validation performed is the length check. -/
noncomputable def calculate_all_indicators (klineData : List Kline) :
    Except String AllResult :=
  if klineData = [] ∨ klineData.length < 30 then
    .ok (.errorDict "数据不足，需要至少30条K线数据")
  else
    let dates := klineData.map (·.date)
    let opens := klineData.map (·.«open»)
    let highs := klineData.map (·.high)
    let lows := klineData.map (·.low)
    let closes := klineData.map (·.close)
    let volumes := klineData.map (·.volume)
    do
      let macd := calculate_macd closes 12 26 9
      let kdj ← calculate_kdj highs lows closes 9 3 3
      let rsi := calculate_rsi closes 14
      let boll := calculate_boll (closes.map fun q => (q : ℝ)) 20 2
      let ma5 := calculate_ma closes 5
      let ma10 := calculate_ma closes 10
      let ma20 := calculate_ma closes 20
      let ma60 := calculate_ma closes 60
      let latest ← getLatestSignals macd kdj rsi boll ma5 ma10 ma20 closes
      .ok (.success
        { dates := dates, opens := opens, highs := highs, lows := lows
          closes := closes, volumes := volumes
          macd := macd, kdj := kdj, rsi := rsi, boll := boll
          ma5 := ma5.map (Option.map (pround 4))
          ma10 := ma10.map (Option.map (pround 4))
          ma20 := ma20.map (Option.map (pround 4))
          ma60 := ma60.map (Option.map (pround 4))
          latestSignals := latest
          dataCount := klineData.length })

section Helpers

theorem getD_pad_lt {α : Type} {p : ℕ} {rest : List (Option α)} {i : ℕ} (h : i < p) :
    (List.replicate p (none : Option α) ++ rest).getD i none = none := by
  rw [List.getD_eq_getElem?_getD, List.getElem?_append_left (by simpa using h)]
  simp [List.getElem?_replicate, h]

theorem getD_pad_ge {α : Type} {p : ℕ} {rest : List (Option α)} {i : ℕ} (h : p ≤ i) :
    (List.replicate p (none : Option α) ++ rest).getD i none = rest.getD (i - p) none := by
  rw [List.getD_eq_getElem?_getD, List.getD_eq_getElem?_getD,
    List.getElem?_append_right (by simpa using h)]
  simp

theorem getD_map_some {α : Type} (d : α) {l : List α} {i : ℕ} (h : i < l.length) :
    (l.map some).getD i none = some (l.getD i d) := by
  rw [List.getD_eq_getElem?_getD, List.getD_eq_getElem?_getD, List.getElem?_map,
    List.getElem?_eq_getElem h]
  simp

theorem getD_map_option {α β : Type} (f : α → β) (l : List (Option α)) (i : ℕ) :
    (l.map (Option.map f)).getD i none = Option.map f (l.getD i none) := by
  rw [List.getD_eq_getElem?_getD, List.getD_eq_getElem?_getD, List.getElem?_map]
  cases l[i]? <;> simp

theorem getD_oob {α : Type} {l : List (Option α)} {i : ℕ} (h : l.length ≤ i) :
    l.getD i none = none := by
  rw [List.getD_eq_getElem?_getD, List.getElem?_eq_none h]
  rfl

theorem getD_drop (l : List ℚ) (a t : ℕ) : (l.drop a).getD t 0 = l.getD (a + t) 0 := by
  rw [List.getD_eq_getElem?_getD, List.getD_eq_getElem?_getD, List.getElem?_drop]

/-- `getD` of a `replicate` padding followed by a map over `range'`: the value
at a post-warm-up index. -/
theorem padMap_getD {β : Type} (g : ℕ → β) {per n i : ℕ} (h1 : 1 ≤ per)
    (hi1 : per - 1 ≤ i) (hi2 : i < n) :
    (List.replicate (per - 1) (none : Option β) ++
      (List.range' (per - 1) (n - (per - 1))).map (fun t => some (g t))).getD i none =
      some (g i) := by
  rw [getD_pad_ge hi1, List.getD_eq_getElem?_getD, List.getElem?_map,
    List.getElem?_range' (per - 1) 1 (show i - (per - 1) < n - (per - 1) by omega)]
  simp only [Option.map_some']
  have he : per - 1 + 1 * (i - (per - 1)) = i := by omega
  rw [he]
  rfl

theorem rhe_floor_le {α : Type} [LinearOrderedField α] [FloorRing α] (x : α) :
    ⌊x⌋ ≤ rhe x := by
  unfold rhe
  split_ifs <;> omega

theorem rhe_le_floor_add_one {α : Type} [LinearOrderedField α] [FloorRing α] (x : α) :
    rhe x ≤ ⌊x⌋ + 1 := by
  unfold rhe
  split_ifs <;> omega

theorem rhe_mono {α : Type} [LinearOrderedField α] [FloorRing α] {x y : α} (h : x ≤ y) :
    rhe x ≤ rhe y := by
  rcases lt_or_le ⌊x⌋ ⌊y⌋ with hf | hf
  · calc rhe x ≤ ⌊x⌋ + 1 := rhe_le_floor_add_one x
      _ ≤ ⌊y⌋ := by omega
      _ ≤ rhe y := rhe_floor_le y
  · have hfe : ⌊x⌋ = ⌊y⌋ := le_antisymm (Int.floor_le_floor h) hf
    have hfr : Int.fract x ≤ Int.fract y := by
      simp only [Int.fract]
      rw [hfe]
      linarith
    unfold rhe
    rw [hfe]
    split_ifs <;> first | omega | linarith

theorem pround_mono {α : Type} [LinearOrderedField α] [FloorRing α] (nd : ℕ) {x y : α}
    (h : x ≤ y) : pround nd x ≤ pround nd y := by
  unfold pround
  have hp : (0 : α) < 10 ^ nd := by positivity
  have hc : (↑(rhe (x * 10 ^ nd)) : α) ≤ ↑(rhe (y * 10 ^ nd)) :=
    Int.cast_le.2 (rhe_mono (mul_le_mul_of_nonneg_right h hp.le))
  exact div_le_div_of_nonneg_right hc hp.le

end Helpers

section SliceSum

theorem slice_sum (l : List ℚ) (a : ℕ) :
    ∀ b : ℕ, a + b ≤ l.length →
      ((l.drop a).take b).sum = ∑ t ∈ Finset.range b, l.getD (a + t) 0 := by
  intro b
  induction b with
  | zero => simp
  | succ n ih =>
    intro hb
    rw [List.take_succ, List.sum_append, ih (by omega), Finset.sum_range_succ]
    congr 1
    rw [List.getElem?_drop, List.getElem?_eq_getElem (show a + n < l.length by omega)]
    simp [List.getD_eq_getElem?_getD, List.getElem?_eq_getElem (show a + n < l.length by omega)]

end SliceSum

section EmaLemmas

theorem emaLoop_length (m : ℚ) (prev : ℚ) (l : List ℚ) :
    (emaLoop m prev l).length = l.length := by
  induction l generalizing prev with
  | nil => rfl
  | cons x xs ih => simp [emaLoop, ih]

theorem emaLoop_getD_zero (m prev : ℚ) {l : List ℚ} (h : l ≠ []) :
    (emaLoop m prev l).getD 0 0 = (l.getD 0 0 - prev) * m + prev := by
  cases l with
  | nil => exact absurd rfl h
  | cons x xs => simp [emaLoop]

theorem emaLoop_getD_succ (m : ℚ) {l : List ℚ} :
    ∀ (prev : ℚ) (t : ℕ), t + 1 < l.length →
      (emaLoop m prev l).getD (t + 1) 0 =
        (l.getD (t + 1) 0 - (emaLoop m prev l).getD t 0) * m +
          (emaLoop m prev l).getD t 0 := by
  induction l with
  | nil => intro prev t ht; simp at ht
  | cons x xs ih =>
    intro prev t ht
    cases t with
    | zero =>
      have hxs : xs ≠ [] := by
        cases xs
        · simp at ht
        · exact List.cons_ne_nil _ _
      simp only [emaLoop, List.getD_cons_succ, List.getD_cons_zero]
      exact emaLoop_getD_zero m _ hxs
    | succ s =>
      simp only [emaLoop, List.getD_cons_succ]
      exact ih _ s (by simpa using Nat.lt_of_succ_lt_succ ht)

theorem calculate_ema_length (p : List ℚ) {per : ℕ} (h1 : 1 ≤ per) :
    (calculate_ema p per).length = p.length := by
  by_cases h : p.length < per
  · simp [calculate_ema, h]
  · simp only [calculate_ema, if_neg h, List.length_append, List.length_replicate,
      List.length_map, List.length_cons, emaLoop_length, List.length_drop]
    omega

theorem calculate_ema_getD_lt (p : List ℚ) {per : ℕ} (hlen : per ≤ p.length)
    {i : ℕ} (hi : i < per - 1) :
    (calculate_ema p per).getD i none = none := by
  unfold calculate_ema
  rw [if_neg (by omega)]
  exact getD_pad_lt hi

/-- The inner (non-`None`) values list of `calculate_ema` past the warm-up. -/
theorem calculate_ema_getD_ge (p : List ℚ) {per : ℕ} (h1 : 1 ≤ per)
    (hlen : per ≤ p.length) {i : ℕ} (hi1 : per - 1 ≤ i) (hi2 : i < p.length) :
    (calculate_ema p per).getD i none =
      some ((((p.take per).sum / per) ::
        emaLoop (2 / ((per : ℚ) + 1)) ((p.take per).sum / per)
          (p.drop per)).getD (i - (per - 1)) 0) := by
  unfold calculate_ema
  rw [if_neg (by omega), getD_pad_ge hi1]
  exact getD_map_some 0 (by
    simp only [List.length_cons, emaLoop_length, List.length_drop]
    omega)

theorem calculate_ema_defined (p : List ℚ) {per : ℕ} (h1 : 1 ≤ per)
    (hlen : per ≤ p.length) {i : ℕ} (hi1 : per - 1 ≤ i) (hi2 : i < p.length) :
    ∃ v, (calculate_ema p per).getD i none = some v :=
  ⟨_, calculate_ema_getD_ge p h1 hlen hi1 hi2⟩

theorem calculate_ema_seed (p : List ℚ) {per : ℕ} (h1 : 1 ≤ per)
    (hlen : per ≤ p.length) :
    (calculate_ema p per).getD (per - 1) none = some ((p.take per).sum / per) := by
  rw [calculate_ema_getD_ge p h1 hlen le_rfl (by omega)]
  simp

theorem calculate_ema_rec (p : List ℚ) {per : ℕ} (h1 : 1 ≤ per)
    (hlen : per ≤ p.length) {i : ℕ} (hi1 : per ≤ i) (hi2 : i < p.length) :
    (calculate_ema p per).getD i none =
      some ((p.getD i 0 - ((calculate_ema p per).getD (i - 1) none).getD 0) *
          (2 / ((per : ℚ) + 1)) +
        ((calculate_ema p per).getD (i - 1) none).getD 0) := by
  have hprev := calculate_ema_getD_ge p h1 hlen (show per - 1 ≤ i - 1 by omega)
    (show i - 1 < p.length by omega)
  have hcur := calculate_ema_getD_ge p h1 hlen (show per - 1 ≤ i by omega) hi2
  rw [hcur, hprev]
  simp only [Option.getD_some]
  -- index bookkeeping: i - (per - 1) = (i - per) + 1, (i-1) - (per-1) = i - per
  have hc : i - (per - 1) = (i - per) + 1 := by omega
  have hp : (i - 1) - (per - 1) = i - per := by omega
  rw [hc, hp, List.getD_cons_succ]
  rcases Nat.eq_zero_or_pos (i - per) with h0 | hpos
  · rw [h0, List.getD_cons_zero,
      emaLoop_getD_zero _ _ (show p.drop per ≠ [] by
        rw [ne_eq, List.drop_eq_nil_iff]
        omega),
      getD_drop]
    have : per + 0 = i := by omega
    rw [this]
  · obtain ⟨s, hs⟩ : ∃ s, i - per = s + 1 := ⟨i - per - 1, by omega⟩
    rw [hs, emaLoop_getD_succ _ _ s (by
        simp only [List.length_drop]
        omega),
      List.getD_cons_succ, getD_drop]
    have : per + (s + 1) = i := by omega
    rw [this]

end EmaLemmas

section MaLemmas

theorem calculate_ma_length (p : List ℚ) {per : ℕ} (h1 : 1 ≤ per) :
    (calculate_ma p per).length = p.length := by
  by_cases h : p.length < per
  · simp [calculate_ma, h]
  · simp only [calculate_ma, if_neg h, List.length_append, List.length_replicate,
      List.length_map, List.length_range']
    omega

theorem calculate_ma_getD_lt (p : List ℚ) {per : ℕ} (hlen : per ≤ p.length)
    {i : ℕ} (hi : i < per - 1) :
    (calculate_ma p per).getD i none = none := by
  rw [calculate_ma, if_neg (by omega)]
  exact getD_pad_lt hi

theorem calculate_ma_getD_ge (p : List ℚ) {per : ℕ} (h1 : 1 ≤ per)
    (hlen : per ≤ p.length) {i : ℕ} (hi1 : per - 1 ≤ i) (hi2 : i < p.length) :
    (calculate_ma p per).getD i none =
      some (((p.drop (i + 1 - per)).take per).sum / per) := by
  rw [calculate_ma, if_neg (by omega)]
  exact padMap_getD (fun t => ((p.drop (t + 1 - per)).take per).sum / per) h1 hi1 hi2

end MaLemmas

section ExceptHelpers

theorem exceptBindOk {α β : Type} (a : α) (f : α → Except String β) :
    (Except.ok a >>= f) = f a := rfl

theorem exceptBindErr {α β : Type} (e : String) (f : α → Except String β) :
    ((Except.error e : Except String α) >>= f) = .error e := rfl

theorem mapM_ok_of_forall {α β : Type} (f : α → Except String β) :
    ∀ (l : List α), (∀ x ∈ l, ∃ y, f x = .ok y) →
      ∃ res, l.mapM f = .ok res ∧ res.length = l.length := by
  intro l
  induction l with
  | nil => exact fun _ => ⟨[], rfl, rfl⟩
  | cons x xs ih =>
    intro h
    obtain ⟨y, hy⟩ := h x (by simp)
    obtain ⟨res, hres, hlen⟩ := ih (fun a ha => h a (by simp [ha]))
    refine ⟨y :: res, ?_, by simp [hlen]⟩
    rw [List.mapM_cons, hy, exceptBindOk, hres, exceptBindOk]
    rfl

theorem mapM_append_error {α β : Type} (f : α → Except String β) {l₁ l₂ : List α}
    {e : String} (h : l₁.mapM f = .error e) : (l₁ ++ l₂).mapM f = .error e := by
  rw [List.mapM_append, h, exceptBindErr]

end ExceptHelpers

section KdjLemmas

theorem kdSmooth_length (prev : ℚ) (l : List (Option ℚ)) :
    (kdSmooth prev l).length = l.length := by
  induction l generalizing prev with
  | nil => rfl
  | cons r rs ih =>
    cases r <;> simp [kdSmooth, ih]

theorem kdjSignalAt_zero (k d : List (Option ℚ)) : kdjSignalAt k d 0 = .ok "neutral" := by
  rw [kdjSignalAt, if_pos (Or.inl rfl)]

theorem kdjSignalAt_none {k d : List (Option ℚ)} {i : ℕ} (h : k.getD i none = none) :
    kdjSignalAt k d i = .ok "neutral" := by
  rw [kdjSignalAt, if_pos (Or.inr (Or.inl h))]

/-- The crash of `_get_kdj_signals` at the seed index: current K and D are the
seeds `50.0`, the previous K and D are `None`, and the golden-cross comparison
`k[i-1] < d[i-1]` raises `TypeError`. -/
theorem kdjSignalAt_seed_error {k d : List (Option ℚ)} {i : ℕ} (hi : i ≠ 0)
    (hk : k.getD i none = some 50) (hd : d.getD i none = some 50)
    (hk1 : k.getD (i - 1) none = none) (hd1 : d.getD (i - 1) none = none) :
    kdjSignalAt k d i = .error "TypeError" := by
  have hcond : ¬(i = 0 ∨ k.getD i none = none ∨ d.getD i none = none) := by
    rw [hk, hd]
    simp [hi]
  rw [kdjSignalAt, if_neg hcond]
  simp only [hk, hd, hk1, hd1, Option.getD_some]
  rw [if_neg (by norm_num), if_neg (by norm_num)]
  rfl

end KdjLemmas

theorem exceptBindCongr {α β : Type} {x : Except String α} {a : α}
    {f : α → Except String β} {e : String} (hx : x = .ok a) (hf : f a = .error e) :
    (x >>= f) = .error e := by
  rw [hx, exceptBindOk, hf]

/-- On any K/D pair with the shape produced by `calculate_kdj` for at least
nine bars (`None` before index 8, the seed `50.0` at index 8), the signal loop
of `_get_kdj_signals` raises `TypeError` at index 8. -/
theorem getKdjSignals_error {k d j : List (Option ℚ)} {n : ℕ} (hn : 9 ≤ n)
    (hklen : k.length = n)
    (hKlt : ∀ i < 8, k.getD i none = none) (hD7 : d.getD 7 none = none)
    (hK8 : k.getD 8 none = some 50) (hD8 : d.getD 8 none = some 50) :
    getKdjSignals k d j = .error "TypeError" := by
  have h0 := kdjSignalAt_zero k d
  have h1 : kdjSignalAt k d 1 = .ok "neutral" := kdjSignalAt_none (hKlt 1 (by omega))
  have h2 : kdjSignalAt k d 2 = .ok "neutral" := kdjSignalAt_none (hKlt 2 (by omega))
  have h3 : kdjSignalAt k d 3 = .ok "neutral" := kdjSignalAt_none (hKlt 3 (by omega))
  have h4 : kdjSignalAt k d 4 = .ok "neutral" := kdjSignalAt_none (hKlt 4 (by omega))
  have h5 : kdjSignalAt k d 5 = .ok "neutral" := kdjSignalAt_none (hKlt 5 (by omega))
  have h6 : kdjSignalAt k d 6 = .ok "neutral" := kdjSignalAt_none (hKlt 6 (by omega))
  have h7 : kdjSignalAt k d 7 = .ok "neutral" := kdjSignalAt_none (hKlt 7 (by omega))
  have h8 : kdjSignalAt k d 8 = .error "TypeError" :=
    kdjSignalAt_seed_error (by omega) hK8 hD8 (hKlt 7 (by omega)) hD7
  rw [getKdjSignals, hklen, show n = 9 + (n - 9) by omega, List.range_add]
  apply mapM_append_error
  rw [show List.range 9 = [0, 1, 2, 3, 4, 5, 6, 7, 8] from rfl]
  simp only [List.mapM_cons, h0, h1, h2, h3, h4, h5, h6, h7, h8,
    exceptBindOk, exceptBindErr]

theorem exceptBindErrCongr {α β : Type} {x : Except String α} {f : α → Except String β}
    {e : String} (hx : x = .error e) : (x >>= f) = .error e := by
  rw [hx, exceptBindErr]

/-- `calculate_kdj` raises `TypeError` on every well-formed input with at
least `period = 9` bars: the signal loop reads the undefined `k[7]`/`d[7]`
at the seed index 8. -/
theorem calculate_kdj_typeerror (high low close : List ℚ)
    (hh : high.length = close.length) (hl : low.length = close.length)
    (hc : 9 ≤ close.length) :
    calculate_kdj high low close 9 3 3 = .error "TypeError" := by
  have hall : ∀ x ∈ List.range close.length, ∃ y, rsvAt high low close 9 x = .ok y := by
    intro i hi
    rw [List.mem_range] at hi
    by_cases h8 : i < 9 - 1
    · exact ⟨none, by rw [rsvAt, if_pos h8]⟩
    · have hneH : (high.drop (i + 1 - 9)).take 9 ≠ [] := by
        rw [ne_eq, List.take_eq_nil_iff]
        push_neg
        refine ⟨by omega, ?_⟩
        rw [ne_eq, List.drop_eq_nil_iff]
        omega
      have hneL : (low.drop (i + 1 - 9)).take 9 ≠ [] := by
        rw [ne_eq, List.take_eq_nil_iff]
        push_neg
        refine ⟨by omega, ?_⟩
        rw [ne_eq, List.drop_eq_nil_iff]
        omega
      obtain ⟨mx, hmx⟩ : ∃ v, ((high.drop (i + 1 - 9)).take 9).max? = some v := by
        cases hq : ((high.drop (i + 1 - 9)).take 9).max? with
        | none => exact absurd (List.max?_eq_none_iff.1 hq) hneH
        | some v => exact ⟨v, rfl⟩
      obtain ⟨mn, hmn⟩ : ∃ v, ((low.drop (i + 1 - 9)).take 9).min? = some v := by
        cases hq : ((low.drop (i + 1 - 9)).take 9).min? with
        | none => exact absurd (List.min?_eq_none_iff.1 hq) hneL
        | some v => exact ⟨v, rfl⟩
      rw [rsvAt, if_neg h8]
      have hLmax : listMax ((high.drop (i + 1 - 9)).take 9) = .ok mx := by
        rw [listMax, hmx]
      have hLmin : listMin ((low.drop (i + 1 - 9)).take 9) = .ok mn := by
        rw [listMin, hmn]
      rw [hLmax, exceptBindOk, hLmin, exceptBindOk]
      by_cases he : mx = mn
      · exact ⟨some 50, by rw [if_pos he]⟩
      · exact ⟨_, by rw [if_neg he]⟩
  obtain ⟨rs, hrsv, hrslen⟩ := mapM_ok_of_forall (rsvAt high low close 9)
    (List.range close.length) hall
  rw [List.length_range] at hrslen
  unfold calculate_kdj
  rw [if_neg (by omega)]
  refine exceptBindCongr hrsv ?_
  dsimp only
  apply exceptBindErrCongr
  refine getKdjSignals_error hc ?_ ?_ ?_ ?_ ?_
  · simp only [List.length_append, List.length_replicate, List.length_map,
      List.length_cons, kdSmooth_length, List.length_drop, hrslen]
    omega
  · intro i hik
    exact getD_pad_lt (by omega)
  · exact getD_pad_lt (by omega)
  · rw [getD_pad_ge (by omega)]
    norm_num [List.map_cons, List.getD_cons_zero]
  · rw [getD_pad_ge (by omega)]
    norm_num [List.map_cons, List.getD_cons_zero]

section AllIndicatorsLemmas

/-- For any series below the 30-bar floor, `calculate_all_indicators` returns
the fixed error dictionary; the message does not depend on the actual bar
count. -/
theorem calculate_all_indicators_short (klineData : List Kline)
    (h : klineData.length < 30) :
    calculate_all_indicators klineData = .ok (.errorDict "数据不足，需要至少30条K线数据") := by
  unfold calculate_all_indicators
  rw [if_pos (Or.inr h)]

/-- For any series of at least 30 bars, `calculate_all_indicators` aborts
with the `TypeError` raised inside the KDJ signal loop (no validation of
dates or any other field ever happens before that). -/
theorem calculate_all_indicators_typeerror (klineData : List Kline)
    (h : 30 ≤ klineData.length) :
    calculate_all_indicators klineData = .error "TypeError" := by
  unfold calculate_all_indicators
  rw [if_neg (by
    push_neg
    constructor
    · intro he
      rw [he] at h
      simp at h
    · omega)]
  dsimp only
  apply exceptBindErrCongr
  apply calculate_kdj_typeerror
  · simp
  · simp
  · simp only [List.length_map]
    omega

/-- The early return of `calculate_macd` below `slow + signal` bars. -/
theorem calculate_macd_short (prices : List ℚ) {fast slow signal : ℕ}
    (h : prices.length < slow + signal) :
    calculate_macd prices fast slow signal =
      ⟨List.replicate prices.length none, List.replicate prices.length none,
       List.replicate prices.length none, List.replicate prices.length "neutral"⟩ := by
  unfold calculate_macd
  rw [if_pos h]

end AllIndicatorsLemmas

/-- C1: the claim says that for every series of at least 9 bars
`calculate_kdj` completes and yields `neutral` at every index whose own or
previous K/D is undefined — in particular at the seed index 8.  The code does
the opposite: on every well-formed input of at least 9 bars the signal loop
reads the undefined `k[7]`/`d[7]` at index 8 and raises `TypeError`, so
`calculate_kdj` never completes.  This theorem evaluates the code's
behaviour: the whole call aborts with `TypeError`. -/
theorem C1_kdj_seed_bar_typeerror (high low close : List ℚ)
    (hh : high.length = close.length) (hl : low.length = close.length)
    (hc : 9 ≤ close.length) :
    calculate_kdj high low close 9 3 3 = .error "TypeError" :=
  calculate_kdj_typeerror high low close hh hl hc

theorem C1_kdj_seed_bar_typeerror_witness :
    9 ≤ ([10, 10, 10, 10, 10, 10, 10, 10, 10] : List ℚ).length ∧
    calculate_kdj [10, 10, 10, 10, 10, 10, 10, 10, 10]
      [10, 10, 10, 10, 10, 10, 10, 10, 10]
      [10, 10, 10, 10, 10, 10, 10, 10, 10] 9 3 3 = .error "TypeError" :=
  ⟨by simp, C1_kdj_seed_bar_typeerror _ _ _ rfl rfl (by simp)⟩

/-- C2 (amended): for every series with `30 ≤ length < 35`,
`calculate_all_indicators` does not fail with the insufficient-data error:
the 30-bar floor check passes, `calculate_macd` silently returns
all-undefined arrays with every signal `neutral`, and the overall call then
aborts with the KDJ `TypeError`, not with an insufficient-data error. -/
theorem C2_macd_silent_degradation (klineData : List Kline)
    (h30 : 30 ≤ klineData.length) (h35 : klineData.length < 35) :
    calculate_macd (klineData.map (·.close)) 12 26 9 =
      ⟨List.replicate klineData.length none, List.replicate klineData.length none,
       List.replicate klineData.length none, List.replicate klineData.length "neutral"⟩ ∧
    calculate_all_indicators klineData = .error "TypeError" := by
  constructor
  · rw [calculate_macd_short _ (by simp only [List.length_map]; omega)]
    simp
  · exact calculate_all_indicators_typeerror _ h30

theorem C2_macd_silent_degradation_witness :
    30 ≤ (List.replicate 30 (⟨"2024-01-01", 1, 1, 1, 1, 1⟩ : Kline)).length ∧
    calculate_all_indicators (List.replicate 30 (⟨"2024-01-01", 1, 1, 1, 1, 1⟩ : Kline)) =
      .error "TypeError" :=
  ⟨by simp,
   (C2_macd_silent_degradation (List.replicate 30 ⟨"2024-01-01", 1, 1, 1, 1, 1⟩)
      (by simp) (by simp)).2⟩

/-- C2 counterexample: a concrete 30-bar series (30 is at the floor but below
MACD's 35-bar need).  The claim says the computation fails with an
insufficient-data error; in fact MACD degrades to all-`neutral` silently and
the call fails with `TypeError` instead — not with the error dictionary. -/
theorem C2_counterexample :
    calculate_all_indicators (List.replicate 30 (⟨"2024-01-01", 1, 1, 1, 1, 1⟩ : Kline)) =
      .error "TypeError" ∧
    (calculate_macd ((List.replicate 30 (⟨"2024-01-01", 1, 1, 1, 1, 1⟩ : Kline)).map
      (·.close)) 12 26 9).signal = List.replicate 30 "neutral" ∧
    calculate_all_indicators (List.replicate 30 (⟨"2024-01-01", 1, 1, 1, 1, 1⟩ : Kline)) ≠
      .ok (.errorDict "数据不足，需要至少30条K线数据") := by
  have h := calculate_all_indicators_typeerror
    (List.replicate 30 (⟨"2024-01-01", 1, 1, 1, 1, 1⟩ : Kline)) (by simp)
  refine ⟨h, ?_, ?_⟩
  · rw [calculate_macd_short _ (by simp)]
    simp
  · rw [h]
    exact fun hx => Except.noConfusion hx

/-- C3 (amended): every series shorter than 30 bars is rejected up front with
the fixed error dictionary stating the 30-bar requirement, and no indicator
computation happens; the error does not carry the actual bar count. -/
theorem C3_short_series_rejected (klineData : List Kline)
    (h : klineData.length < 30) :
    calculate_all_indicators klineData = .ok (.errorDict "数据不足，需要至少30条K线数据") :=
  calculate_all_indicators_short klineData h

theorem C3_short_series_rejected_witness :
    (List.replicate 25 (⟨"2024-01-01", 1, 1, 1, 1, 1⟩ : Kline)).length < 30 ∧
    calculate_all_indicators (List.replicate 25 (⟨"2024-01-01", 1, 1, 1, 1, 1⟩ : Kline)) =
      .ok (.errorDict "数据不足，需要至少30条K线数据") :=
  ⟨by simp, C3_short_series_rejected _ (by simp)⟩

/-- C3 counterexample: the rejection for a 25-bar series is byte-for-byte the
same value as for a 10-bar series, so the error is not of the claimed form
`InsufficientData{required: 30, actual: 25}` — it carries no actual count. -/
theorem C3_counterexample :
    calculate_all_indicators (List.replicate 25 (⟨"2024-01-01", 1, 1, 1, 1, 1⟩ : Kline)) =
      .ok (.errorDict "数据不足，需要至少30条K线数据") ∧
    calculate_all_indicators (List.replicate 25 (⟨"2024-01-01", 1, 1, 1, 1, 1⟩ : Kline)) =
      calculate_all_indicators (List.replicate 10 (⟨"2024-01-01", 1, 1, 1, 1, 1⟩ : Kline)) :=
  ⟨calculate_all_indicators_short _ (by simp),
   by rw [calculate_all_indicators_short _ (by simp),
     calculate_all_indicators_short _ (by simp)]⟩

/-- C4 (amended): `calculate_all_indicators` performs no validation of date
order, duplicate dates or field types: relabelling the dates of a series
arbitrarily (in particular making them unsorted or duplicated) never changes
the outcome, and every series of at least 30 bars proceeds into indicator
computation, which then aborts with the KDJ `TypeError` — it is not rejected
with any invalid-series error. -/
theorem C4_no_series_validation (klineData : List Kline) (g : String → String)
    (h : 30 ≤ klineData.length) :
    calculate_all_indicators klineData = .error "TypeError" ∧
    calculate_all_indicators (klineData.map fun b =>
      ⟨g b.date, b.«open», b.high, b.low, b.close, b.volume⟩) =
      calculate_all_indicators klineData := by
  refine ⟨calculate_all_indicators_typeerror _ h, ?_⟩
  rw [calculate_all_indicators_typeerror _ h,
    calculate_all_indicators_typeerror _ (by simpa using h)]

theorem C4_no_series_validation_witness :
    30 ≤ (List.replicate 30 (⟨"2024-01-01", 1, 1, 1, 1, 1⟩ : Kline)).length ∧
    calculate_all_indicators (List.replicate 30 (⟨"2024-01-01", 1, 1, 1, 1, 1⟩ : Kline)) =
      .error "TypeError" :=
  ⟨by simp,
   (C4_no_series_validation (List.replicate 30 ⟨"2024-01-01", 1, 1, 1, 1, 1⟩)
      (fun _ => "1970-01-01") (by simp)).1⟩

/-- C4 counterexample: a concrete 30-bar series whose dates are unsorted and
duplicated is not rejected with an invalid-series error before computation;
the call runs the indicator pipeline and aborts with the KDJ `TypeError`. -/
theorem C4_counterexample :
    calculate_all_indicators ((List.range 30).map fun t =>
      ⟨if t % 2 = 0 then "2024-01-31" else "2024-01-01", 1, 2, 1, 1, 1⟩) =
      .error "TypeError" ∧
    calculate_all_indicators ((List.range 30).map fun t =>
      ⟨if t % 2 = 0 then "2024-01-31" else "2024-01-01", 1, 2, 1, 1, 1⟩) ≠
      .ok (.errorDict "数据不足，需要至少30条K线数据") := by
  have h := calculate_all_indicators_typeerror ((List.range 30).map fun t =>
    ⟨if t % 2 = 0 then "2024-01-31" else "2024-01-01", 1, 2, 1, 1, 1⟩) (by simp)
  exact ⟨h, by rw [h]; exact fun hx => Except.noConfusion hx⟩

/-- C5: for every price list and period `p ≥ 1` with enough data,
`calculate_ma` and `calculate_ema` return lists of the input length, undefined
exactly below index `p - 1`; the MA value is the arithmetic mean of the
trailing window, the EMA is seeded with the mean of the first `p` prices and
then follows `ema[i] = (prices[i] - ema[i-1]) * (2/(p+1)) + ema[i-1]`. -/
theorem C5_ma_ema_warmup (p : List ℚ) (per : ℕ) (h1 : 1 ≤ per) (hlen : per ≤ p.length) :
    (calculate_ma p per).length = p.length ∧
    (calculate_ema p per).length = p.length ∧
    (∀ i, i < p.length →
      ((calculate_ma p per).getD i none = none ↔ i < per - 1) ∧
      ((calculate_ema p per).getD i none = none ↔ i < per - 1)) ∧
    (∀ i, per - 1 ≤ i → i < p.length →
      (calculate_ma p per).getD i none =
        some ((∑ t ∈ Finset.range per, p.getD (i + 1 - per + t) 0) / per)) ∧
    (calculate_ema p per).getD (per - 1) none =
      some ((∑ t ∈ Finset.range per, p.getD t 0) / per) ∧
    (∀ i, per ≤ i → i < p.length →
      (calculate_ema p per).getD i none =
        some ((p.getD i 0 - ((calculate_ema p per).getD (i - 1) none).getD 0) *
            (2 / ((per : ℚ) + 1)) +
          ((calculate_ema p per).getD (i - 1) none).getD 0)) := by
  refine ⟨calculate_ma_length p h1, calculate_ema_length p h1, ?_, ?_, ?_,
    fun i hi1 hi2 => calculate_ema_rec p h1 hlen hi1 hi2⟩
  · intro i hi
    constructor
    · constructor
      · intro hnone
        by_contra hge
        rw [calculate_ma_getD_ge p h1 hlen (by omega) hi] at hnone
        exact Option.noConfusion hnone
      · exact fun hlt => calculate_ma_getD_lt p hlen hlt
    · constructor
      · intro hnone
        by_contra hge
        rw [calculate_ema_getD_ge p h1 hlen (by omega) hi] at hnone
        exact Option.noConfusion hnone
      · exact fun hlt => calculate_ema_getD_lt p hlen hlt
  · intro i hi1 hi2
    rw [calculate_ma_getD_ge p h1 hlen hi1 hi2, slice_sum p (i + 1 - per) per (by omega)]
  · rw [calculate_ema_seed p h1 hlen]
    have hs := slice_sum p 0 per (by omega)
    rw [List.drop_zero] at hs
    rw [hs]
    simp only [Nat.zero_add]

theorem C5_ma_ema_warmup_witness :
    1 ≤ 2 ∧ 2 ≤ ([1, 2, 3] : List ℚ).length ∧
    (calculate_ma [1, 2, 3] 2).getD 1 none =
      some ((∑ t ∈ Finset.range 2, ([1, 2, 3] : List ℚ).getD (1 + 1 - 2 + t) 0) / 2) :=
  ⟨by norm_num, by simp,
   (C5_ma_ema_warmup [1, 2, 3] 2 (by norm_num) (by simp)).2.2.2.1 1 (by norm_num) (by simp)⟩

section MacdDeaLemmas

theorem rangeMap_getD {β : Type} (f : ℕ → Option β) {n i : ℕ} (h : i < n) :
    ((List.range n).map f).getD i none = f i := by
  rw [List.getD_eq_getElem?_getD, List.getElem?_map, List.getElem?_range h]
  rfl

theorem getElem?_eq_some_getD {α : Type} {l : List (Option α)} {n : ℕ} (h : n < l.length) :
    l[n]? = some (l.getD n none) := by
  rw [List.getD_eq_getElem?_getD, List.getElem?_eq_getElem h]
  rfl

theorem padMap_getD' {β : Type} (g : ℕ → β) {c n i : ℕ} (hi1 : c ≤ i) (hi2 : i < n) :
    (List.replicate c (none : Option β) ++
      (List.range' c (n - c)).map (fun t => some (g t))).getD i none = some (g i) := by
  rw [getD_pad_ge (by simpa using hi1), List.getD_eq_getElem?_getD, List.getElem?_map,
    List.getElem?_range' c 1 (show i - c < n - c by omega)]
  simp only [Option.map_some']
  have he : c + 1 * (i - c) = i := by omega
  rw [he]
  rfl

theorem filterMap_id_map_some {β : Type} (g : ℕ → β) (l : List ℕ) :
    (l.map (fun t => some (g t))).filterMap id = l.map g := by
  induction l with
  | nil => rfl
  | cons x xs ih => simp [List.filterMap_cons, ih]

theorem macdDif_length (p : List ℚ) (fast slow : ℕ) :
    (macdDif p fast slow).length = p.length := by
  simp [macdDif]

theorem macdDif_getD_lt (p : List ℚ) (h35 : 35 ≤ p.length) {i : ℕ} (hi : i < 25) :
    (macdDif p 12 26).getD i none = none := by
  rw [macdDif, rangeMap_getD _ (by omega)]
  have h26 : (calculate_ema p 26).getD i none = none :=
    calculate_ema_getD_lt p (show (26 : ℕ) ≤ p.length by omega) (show i < 26 - 1 by omega)
  rw [h26]
  cases (calculate_ema p 12).getD i none <;> rfl

theorem macdDif_getD_ge (p : List ℚ) (h35 : 35 ≤ p.length) {i : ℕ} (h25 : 25 ≤ i)
    (hi : i < p.length) :
    (macdDif p 12 26).getD i none =
      some (((calculate_ema p 12).getD i none).getD 0 -
        ((calculate_ema p 26).getD i none).getD 0) := by
  obtain ⟨a, ha⟩ := calculate_ema_defined p (show (1 : ℕ) ≤ 12 by norm_num)
    (show (12 : ℕ) ≤ p.length by omega) (show 12 - 1 ≤ i by omega) hi
  obtain ⟨b, hb⟩ := calculate_ema_defined p (show (1 : ℕ) ≤ 26 by norm_num)
    (show (26 : ℕ) ≤ p.length by omega) (show 26 - 1 ≤ i by omega) hi
  rw [macdDif, rangeMap_getD _ hi, ha, hb]
  rfl

/-- The `dif` list, rewritten as 25 leading `None`s followed by the defined
spread values. -/
theorem macdDif_split (p : List ℚ) (h35 : 35 ≤ p.length) :
    macdDif p 12 26 =
      List.replicate 25 (none : Option ℚ) ++
        (List.range' 25 (p.length - 25)).map (fun t =>
          some (((calculate_ema p 12).getD t none).getD 0 -
            ((calculate_ema p 26).getD t none).getD 0)) := by
  apply List.ext_getElem?
  intro n
  by_cases hn : n < p.length
  · by_cases h25 : n < 25
    · rw [getElem?_eq_some_getD (by rw [macdDif_length]; omega),
        getElem?_eq_some_getD (by simp; omega),
        macdDif_getD_lt p h35 h25, getD_pad_lt h25]
    · rw [getElem?_eq_some_getD (by rw [macdDif_length]; omega),
        getElem?_eq_some_getD (by simp; omega),
        macdDif_getD_ge p h35 (by omega) hn,
        padMap_getD' _ (by omega) hn]
  · rw [List.getElem?_eq_none (by rw [macdDif_length]; omega),
      List.getElem?_eq_none (by simp; omega)]

end MacdDeaLemmas

/-- C6: for at least 35 bars, `dif` is undefined exactly below index 25, the
compacted defined `dif` values form a list of length `len - 25`, `dea` is that
compacted list run through `ema(·, 9)` and re-expanded by left-padding with
exactly 25 undefined entries, so `dea` is defined exactly at indices `≥ 33`
and each defined `dea[i]` is the compacted-series EMA entry at compacted
index `i - 25`; `calculate_macd` returns exactly this `dea` (rounded to 4
decimals). -/
theorem C6_macd_dea_alignment (p : List ℚ) (h35 : 35 ≤ p.length) :
    (∀ i, i < p.length → ((macdDif p 12 26).getD i none = none ↔ i < 25)) ∧
    ((macdDif p 12 26).filterMap id).length = p.length - 25 ∧
    macdDea p 12 26 9 =
      List.replicate 25 (none : Option ℚ) ++
        calculate_ema ((macdDif p 12 26).filterMap id) 9 ∧
    (∀ i, i < p.length → ((macdDea p 12 26 9).getD i none ≠ none ↔ 33 ≤ i)) ∧
    (∀ i, 33 ≤ i → i < p.length →
      (macdDea p 12 26 9).getD i none =
        (calculate_ema ((macdDif p 12 26).filterMap id) 9).getD (i - 25) none) ∧
    (calculate_macd p 12 26 9).dea = (macdDea p 12 26 9).map (Option.map (pround 4)) := by
  have hdv : (macdDif p 12 26).filterMap id =
      (List.range' 25 (p.length - 25)).map (fun t =>
        ((calculate_ema p 12).getD t none).getD 0 -
          ((calculate_ema p 26).getD t none).getD 0) := by
    rw [macdDif_split p h35, List.filterMap_append, filterMap_id_map_some]
    simp [List.filterMap_replicate]
  have hdvlen : ((macdDif p 12 26).filterMap id).length = p.length - 25 := by
    rw [hdv]
    simp
  have hdea : macdDea p 12 26 9 =
      List.replicate 25 (none : Option ℚ) ++
        calculate_ema ((macdDif p 12 26).filterMap id) 9 := by
    rw [macdDea]
    rw [if_pos (by rw [hdvlen]; omega)]
    congr 2
    rw [macdDif_length, calculate_ema_length _ (show (1 : ℕ) ≤ 9 by norm_num), hdvlen]
    omega
  refine ⟨?_, hdvlen, hdea, ?_, ?_, ?_⟩
  · intro i hi
    constructor
    · intro hnone
      by_contra hge
      rw [macdDif_getD_ge p h35 (by omega) hi] at hnone
      exact Option.noConfusion hnone
    · exact fun hlt => macdDif_getD_lt p h35 hlt
  · intro i hi
    by_cases h25 : i < 25
    · rw [hdea, getD_pad_lt h25]
      simp
      omega
    · rw [hdea, getD_pad_ge (by omega)]
      by_cases h33 : 33 ≤ i
      · obtain ⟨v, hv⟩ := calculate_ema_defined ((macdDif p 12 26).filterMap id)
          (show (1 : ℕ) ≤ 9 by norm_num) (by rw [hdvlen]; omega)
          (show 9 - 1 ≤ i - 25 by omega) (by rw [hdvlen]; omega)
        rw [hv]
        simp [h33]
      · rw [calculate_ema_getD_lt _ (by rw [hdvlen]; omega) (show i - 25 < 9 - 1 by omega)]
        simp
        omega
  · intro i hi33 hi
    rw [hdea, getD_pad_ge (by omega)]
  · rw [calculate_macd, if_neg (by omega)]

theorem C6_macd_dea_alignment_witness :
    35 ≤ (List.replicate 35 (1 : ℚ)).length ∧
    ((macdDif (List.replicate 35 (1 : ℚ)) 12 26).filterMap id).length =
      (List.replicate 35 (1 : ℚ)).length - 25 :=
  ⟨by simp, (C6_macd_dea_alignment (List.replicate 35 (1 : ℚ)) (by simp)).2.1⟩

section RsiLemmas

theorem rsiLoop_length (per : ℕ) :
    ∀ (gs ls : List ℚ) (ag al : ℚ),
      (rsiLoop per ag al gs ls).length = min gs.length ls.length := by
  intro gs
  induction gs with
  | nil => intro ls ag al; cases ls <;> simp [rsiLoop]
  | cons g gs ih =>
    intro ls ag al
    cases ls with
    | nil => simp [rsiLoop]
    | cons l ls =>
      simp only [rsiLoop, List.length_cons, ih]
      omega

theorem rsiChanges_length (p : List ℚ) (h : 1 ≤ p.length) :
    (rsiChanges p).length = p.length := by
  simp only [rsiChanges, List.length_cons, List.length_zipWith, List.length_tail]
  omega

theorem rsiPairs_length (p : List ℚ) (h : 15 ≤ p.length) :
    (rsiPairs p 14).length = p.length - 15 := by
  simp only [rsiPairs, rsiLoop_length, List.length_drop, rsiGains, rsiLosses,
    List.length_map, rsiChanges_length p (by omega)]
  omega

theorem rsiRaw_length (p : List ℚ) (h : 15 ≤ p.length) :
    (rsiRaw p 14).length = p.length := by
  simp only [rsiRaw, List.length_append, List.length_replicate, List.length_map,
    List.length_cons, rsiPairs_length p h]
  omega

theorem rsiRaw_getD_lt (p : List ℚ) {i : ℕ} (hi : i < 14) :
    (rsiRaw p 14).getD i none = none := by
  rw [rsiRaw]
  exact getD_pad_lt hi

theorem rsiRaw_getD_ge (p : List ℚ) (h : 15 ≤ p.length) {i : ℕ} (hi1 : 14 ≤ i)
    (hi2 : i < p.length) :
    (rsiRaw p 14).getD i none =
      some ((rsiVal (rsiSeedGain p 14) (rsiSeedLoss p 14) ::
        (rsiPairs p 14).map Prod.snd).getD (i - 14) 0) := by
  rw [rsiRaw, getD_pad_ge hi1]
  exact getD_map_some 0 (by
    simp only [List.length_cons, List.length_map, rsiPairs_length p h]
    omega)

theorem rsiGains_nonneg (p : List ℚ) : ∀ x ∈ rsiGains p, 0 ≤ x := by
  intro x hx
  rw [rsiGains, List.mem_map] at hx
  obtain ⟨c, _, hc⟩ := hx
  rw [← hc]
  exact le_max_left 0 c

theorem rsiLosses_nonneg (p : List ℚ) : ∀ x ∈ rsiLosses p, 0 ≤ x := by
  intro x hx
  rw [rsiLosses, List.mem_map] at hx
  obtain ⟨c, _, hc⟩ := hx
  rw [← hc]
  exact abs_nonneg _

theorem rsiSeedGain_nonneg (p : List ℚ) : 0 ≤ rsiSeedGain p 14 := by
  apply div_nonneg _ (by norm_num)
  apply List.sum_nonneg
  intro x hx
  exact rsiGains_nonneg p x (List.mem_of_mem_drop (List.mem_of_mem_take hx))

theorem rsiSeedLoss_nonneg (p : List ℚ) : 0 ≤ rsiSeedLoss p 14 := by
  apply div_nonneg _ (by norm_num)
  apply List.sum_nonneg
  intro x hx
  exact rsiLosses_nonneg p x (List.mem_of_mem_drop (List.mem_of_mem_take hx))

theorem rsiVal_bounds {ag al : ℚ} (hg : 0 ≤ ag) (hl : 0 ≤ al) :
    0 ≤ rsiVal ag al ∧ rsiVal ag al ≤ 100 ∧ (rsiVal ag al = 100 ↔ al = 0) := by
  by_cases h : al = 0
  · rw [rsiVal, if_pos h]
    exact ⟨by norm_num, le_rfl, by simp [h]⟩
  · have hal : 0 < al := lt_of_le_of_ne hl (Ne.symm h)
    have hrs : 0 ≤ ag / al := div_nonneg hg hl
    have h1 : (0 : ℚ) < 1 + ag / al := by linarith
    have hfrac1 : 100 / (1 + ag / al) ≤ 100 := div_le_self (by norm_num) (by linarith)
    have hfrac2 : 0 < 100 / (1 + ag / al) := div_pos (by norm_num) h1
    rw [rsiVal, if_neg h]
    refine ⟨by linarith, by linarith, ?_⟩
    constructor
    · intro heq
      exfalso
      linarith
    · intro hal0
      exact absurd hal0 h

/-- The invariant of the Wilder smoothing loop: from nonnegative state and
nonnegative inputs, every running average loss is nonnegative, every produced
RSI value is in `[0, 100]`, and it equals `100` exactly when the running
average loss at that step is zero. -/
theorem rsiLoop_inv {per : ℕ} (hper : 1 ≤ per) :
    ∀ (gs ls : List ℚ) (ag al : ℚ), 0 ≤ ag → 0 ≤ al →
      (∀ x ∈ gs, 0 ≤ x) → (∀ x ∈ ls, 0 ≤ x) →
      ∀ pr ∈ rsiLoop per ag al gs ls,
        0 ≤ pr.1 ∧ 0 ≤ pr.2 ∧ pr.2 ≤ 100 ∧ (pr.2 = 100 ↔ pr.1 = 0) := by
  have hperQ : (1 : ℚ) ≤ (per : ℚ) := by exact_mod_cast hper
  have hperpos : (0 : ℚ) < (per : ℚ) := by linarith
  intro gs
  induction gs with
  | nil => intro ls ag al _ _ _ _ pr hpr; simp [rsiLoop] at hpr
  | cons g gs ih =>
    intro ls ag al hag hal hgs hls pr hpr
    cases ls with
    | nil => simp [rsiLoop] at hpr
    | cons l ls =>
      have hg : 0 ≤ g := hgs g (by simp)
      have hl : 0 ≤ l := hls l (by simp)
      have hag2 : 0 ≤ (ag * ((per : ℚ) - 1) + g) / per :=
        div_nonneg (by nlinarith) hperpos.le
      have hal2 : 0 ≤ (al * ((per : ℚ) - 1) + l) / per :=
        div_nonneg (by nlinarith) hperpos.le
      rw [rsiLoop, List.mem_cons] at hpr
      rcases hpr with hpr | hpr
      · rw [hpr]
        have hb := rsiVal_bounds hag2 hal2
        exact ⟨hal2, hb.1, hb.2.1, hb.2.2⟩
      · exact ih ls _ _ hag2 hal2 (fun x hx => hgs x (by simp [hx]))
          (fun x hx => hls x (by simp [hx])) pr hpr

/-- The smoothing loop with zero average loss and all-zero remaining losses
produces only the pair `(0, 100)` states. -/
theorem rsiLoop_zero_loss {per : ℕ} (hper : 1 ≤ per) :
    ∀ (gs ls : List ℚ) (ag al : ℚ), al = 0 → (∀ x ∈ ls, x = 0) →
      ∀ pr ∈ rsiLoop per ag al gs ls, pr.1 = 0 ∧ pr.2 = 100 := by
  intro gs
  induction gs with
  | nil => intro ls ag al _ _ pr hpr; simp [rsiLoop] at hpr
  | cons g gs ih =>
    intro ls ag al hal hls pr hpr
    cases ls with
    | nil => simp [rsiLoop] at hpr
    | cons l ls =>
      have hl : l = 0 := hls l (by simp)
      have hal2 : (al * ((per : ℚ) - 1) + l) / per = 0 := by
        rw [hal, hl]
        simp
      rw [rsiLoop, List.mem_cons] at hpr
      rcases hpr with hpr | hpr
      · rw [hpr]
        refine ⟨hal2, ?_⟩
        rw [hal2, rsiVal, if_pos rfl]
      · exact ih ls _ _ hal2 (fun x hx => hls x (by simp [hx])) pr hpr

end RsiLemmas

theorem rhe_intCast {α : Type} [LinearOrderedField α] [FloorRing α] (n : ℤ) :
    rhe ((n : ℤ) : α) = n := by
  rw [rhe, Int.fract_intCast]
  rw [if_pos (by norm_num)]
  exact Int.floor_intCast n

theorem pround2_100 : pround 2 (100 : ℚ) = 100 := by
  have h : (100 : ℚ) * 10 ^ 2 = ((10000 : ℤ) : ℚ) := by norm_num
  rw [pround, h, rhe_intCast]
  norm_num

theorem pround2_0 : pround 2 (0 : ℚ) = 0 := by
  have h : (0 : ℚ) * 10 ^ 2 = ((0 : ℤ) : ℚ) := by norm_num
  rw [pround, h, rhe_intCast]
  norm_num

theorem zip_sub_nonneg :
    ∀ (p : List ℚ), List.Chain' (· ≤ ·) p →
      ∀ c ∈ List.zipWith (fun a b => a - b) p.tail p, 0 ≤ c := by
  intro p
  induction p with
  | nil => intro _ c hc; simp at hc
  | cons a t ih =>
    intro hch c hc
    cases t with
    | nil => simp at hc
    | cons b t2 =>
      rw [List.tail_cons, List.zipWith_cons_cons, List.mem_cons] at hc
      rcases hc with hc | hc
      · rw [hc]
        have hab := (List.chain'_cons.1 hch).1
        linarith
      · exact ih (List.chain'_cons.1 hch).2 c (by rw [List.tail_cons]; exact hc)

theorem rsiLosses_zero_of_monotone (p : List ℚ) (hmono : List.Chain' (· ≤ ·) p) :
    ∀ x ∈ rsiLosses p, x = 0 := by
  intro x hx
  rw [rsiLosses, List.mem_map] at hx
  obtain ⟨c, hc, hcx⟩ := hx
  have hc0 : 0 ≤ c := by
    rw [rsiChanges, List.mem_cons] at hc
    rcases hc with hc | hc
    · rw [hc]
    · exact zip_sub_nonneg p hmono c hc
  rw [← hcx, min_eq_left hc0, abs_zero]

theorem rsiSeedLoss_zero (p : List ℚ) (hz : ∀ x ∈ rsiLosses p, x = 0) :
    rsiSeedLoss p 14 = 0 := by
  rw [rsiSeedLoss,
    List.sum_eq_zero (fun x hx => hz x (List.mem_of_mem_drop (List.mem_of_mem_take hx)))]
  simp

theorem calculate_rsi_rsi (p : List ℚ) (h : 15 ≤ p.length) :
    (calculate_rsi p 14).rsi = (rsiRaw p 14).map (Option.map (pround 2)) := by
  rw [calculate_rsi, if_neg (by omega)]

/-- C8: on a non-decreasing series of at least 15 bars every per-bar loss is
zero, so the returned RSI is `100.0` at every index from 14 on and undefined
before index 14. -/
theorem C8_rsi_nondecreasing_is_100 (p : List ℚ) (hlen : 15 ≤ p.length)
    (hmono : List.Chain' (· ≤ ·) p) :
    ∀ i, i < p.length →
      (14 ≤ i → (calculate_rsi p 14).rsi.getD i none = some 100) ∧
      (i < 14 → (calculate_rsi p 14).rsi.getD i none = none) := by
  have hz := rsiLosses_zero_of_monotone p hmono
  have hseed := rsiSeedLoss_zero p hz
  intro i hi
  constructor
  · intro hi14
    rw [calculate_rsi_rsi p hlen, getD_map_option, rsiRaw_getD_ge p hlen hi14 hi]
    rcases Nat.lt_or_ge i 15 with h15 | h15
    · have h0 : i - 14 = 0 := by omega
      rw [h0, List.getD_cons_zero, hseed, rsiVal, if_pos rfl]
      simp only [Option.map_some']
      rw [pround2_100]
    · obtain ⟨t, ht⟩ : ∃ t, i - 14 = t + 1 := ⟨i - 15, by omega⟩
      rw [ht, List.getD_cons_succ]
      have htlen : t < (rsiPairs p 14).length := by
        rw [rsiPairs_length p hlen]
        omega
      have hmem : (rsiPairs p 14)[t] ∈ rsiLoop 14 (rsiSeedGain p 14) (rsiSeedLoss p 14)
          ((rsiGains p).drop (14 + 1)) ((rsiLosses p).drop (14 + 1)) :=
        List.getElem_mem htlen
      have hzero := rsiLoop_zero_loss (show (1 : ℕ) ≤ 14 by norm_num) _ _ _ _ hseed
        (fun x hx => hz x (List.mem_of_mem_drop hx)) _ hmem
      have hval : ((rsiPairs p 14).map Prod.snd).getD t 0 = ((rsiPairs p 14)[t]).2 := by
        rw [List.getD_eq_getElem?_getD, List.getElem?_map, List.getElem?_eq_getElem htlen]
        rfl
      rw [hval, hzero.2]
      simp only [Option.map_some']
      rw [pround2_100]
  · intro hlt
    rw [calculate_rsi_rsi p hlen, getD_map_option, rsiRaw_getD_lt p hlt]
    rfl

theorem C8_rsi_nondecreasing_is_100_witness :
    15 ≤ (List.replicate 15 (1 : ℚ)).length ∧
    List.Chain' (· ≤ ·) (List.replicate 15 (1 : ℚ)) ∧
    (calculate_rsi (List.replicate 15 (1 : ℚ)) 14).rsi.getD 14 none = some 100 :=
  ⟨by simp, by simp,
   ((C8_rsi_nondecreasing_is_100 (List.replicate 15 (1 : ℚ)) (by simp) (by simp))
      14 (by simp)).1 (by norm_num)⟩

theorem getD_map_fst (l : List (ℚ × ℚ)) {t : ℕ} (h : t < l.length) :
    (l.map Prod.fst).getD t 0 = l[t].1 := by
  rw [List.getD_eq_getElem?_getD, List.getElem?_map, List.getElem?_eq_getElem h]
  rfl

theorem getD_map_snd (l : List (ℚ × ℚ)) {t : ℕ} (h : t < l.length) :
    (l.map Prod.snd).getD t 0 = l[t].2 := by
  rw [List.getD_eq_getElem?_getD, List.getElem?_map, List.getElem?_eq_getElem h]
  rfl

/-- Every defined entry of the unrounded RSI list lies in `[0, 100]`. -/
theorem rsiRaw_bounds (p : List ℚ) (hlen : 15 ≤ p.length) {i : ℕ} {w : ℚ}
    (h : (rsiRaw p 14).getD i none = some w) : 0 ≤ w ∧ w ≤ 100 := by
  by_cases hi : i < 14
  · rw [rsiRaw_getD_lt p hi] at h
    exact Option.noConfusion h
  · rcases Nat.lt_or_ge i p.length with hi2 | hi2
    · rw [rsiRaw_getD_ge p hlen (by omega) hi2] at h
      have hw := Option.some.inj h
      rcases Nat.lt_or_ge i 15 with h15 | h15
      · have h0 : i - 14 = 0 := by omega
        rw [h0, List.getD_cons_zero] at hw
        have hb := rsiVal_bounds (rsiSeedGain_nonneg p) (rsiSeedLoss_nonneg p)
        rw [← hw]
        exact ⟨hb.1, hb.2.1⟩
      · obtain ⟨t, ht⟩ : ∃ t, i - 14 = t + 1 := ⟨i - 15, by omega⟩
        rw [ht, List.getD_cons_succ] at hw
        have htlen : t < (rsiPairs p 14).length := by
          rw [rsiPairs_length p hlen]
          omega
        have hmem : (rsiPairs p 14)[t] ∈ rsiLoop 14 (rsiSeedGain p 14) (rsiSeedLoss p 14)
            ((rsiGains p).drop (14 + 1)) ((rsiLosses p).drop (14 + 1)) :=
          List.getElem_mem htlen
        have hinv := rsiLoop_inv (show (1 : ℕ) ≤ 14 by norm_num) _ _ _ _
          (rsiSeedGain_nonneg p) (rsiSeedLoss_nonneg p)
          (fun x hx => rsiGains_nonneg p x (List.mem_of_mem_drop hx))
          (fun x hx => rsiLosses_nonneg p x (List.mem_of_mem_drop hx)) _ hmem
        rw [getD_map_snd _ htlen] at hw
        rw [← hw]
        exact ⟨hinv.2.1, hinv.2.2.1⟩
    · rw [getD_oob (by rw [rsiRaw_length p hlen]; omega)] at h
      exact Option.noConfusion h

/-- C10 (amended): every defined entry of the returned (rounded) RSI array
lies in `[0, 100]`, and the unrounded RSI value equals `100.0` exactly when
the running average loss at that index is zero.  (After the 2-decimal
rounding, a returned entry can equal `100.0` with a nonzero average loss; see
the counterexample.) -/
theorem C10_rsi_range_and_zero_loss (p : List ℚ) (hlen : 15 ≤ p.length) :
    (∀ i v, (calculate_rsi p 14).rsi.getD i none = some v → 0 ≤ v ∧ v ≤ 100) ∧
    (∀ i, 14 ≤ i → i < p.length →
      ((rsiRaw p 14).getD i none = some 100 ↔
        (rsiAvgLosses p 14).getD (i - 14) 0 = 0)) := by
  constructor
  · intro i v hv
    rw [calculate_rsi_rsi p hlen, getD_map_option] at hv
    cases hraw : (rsiRaw p 14).getD i none with
    | none =>
      rw [hraw] at hv
      exact Option.noConfusion hv
    | some w =>
      rw [hraw] at hv
      simp only [Option.map_some'] at hv
      have hb := rsiRaw_bounds p hlen hraw
      have hv2 := Option.some.inj hv
      rw [← hv2]
      constructor
      · calc (0 : ℚ) = pround 2 0 := pround2_0.symm
          _ ≤ pround 2 w := pround_mono 2 hb.1
      · calc pround 2 w ≤ pround 2 100 := pround_mono 2 hb.2
          _ = 100 := pround2_100
  · intro i h14 hi
    rw [rsiRaw_getD_ge p hlen h14 hi]
    rcases Nat.lt_or_ge i 15 with h15 | h15
    · have h0 : i - 14 = 0 := by omega
      rw [h0, List.getD_cons_zero, rsiAvgLosses, List.getD_cons_zero]
      have hb := (rsiVal_bounds (rsiSeedGain_nonneg p) (rsiSeedLoss_nonneg p)).2.2
      simp only [Option.some.injEq]
      exact hb
    · obtain ⟨t, ht⟩ : ∃ t, i - 14 = t + 1 := ⟨i - 15, by omega⟩
      rw [ht, List.getD_cons_succ, rsiAvgLosses, List.getD_cons_succ]
      have htlen : t < (rsiPairs p 14).length := by
        rw [rsiPairs_length p hlen]
        omega
      have hmem : (rsiPairs p 14)[t] ∈ rsiLoop 14 (rsiSeedGain p 14) (rsiSeedLoss p 14)
          ((rsiGains p).drop (14 + 1)) ((rsiLosses p).drop (14 + 1)) :=
        List.getElem_mem htlen
      have hinv := rsiLoop_inv (show (1 : ℕ) ≤ 14 by norm_num) _ _ _ _
        (rsiSeedGain_nonneg p) (rsiSeedLoss_nonneg p)
        (fun x hx => rsiGains_nonneg p x (List.mem_of_mem_drop hx))
        (fun x hx => rsiLosses_nonneg p x (List.mem_of_mem_drop hx)) _ hmem
      rw [getD_map_snd _ htlen, getD_map_fst _ htlen]
      simp only [Option.some.injEq]
      exact hinv.2.2.2

theorem C10_rsi_range_and_zero_loss_witness :
    15 ≤ (List.replicate 15 (1 : ℚ)).length ∧
    ((rsiRaw (List.replicate 15 (1 : ℚ)) 14).getD 14 none = some 100 ↔
      (rsiAvgLosses (List.replicate 15 (1 : ℚ)) 14).getD (14 - 14) 0 = 0) :=
  ⟨by simp,
   (C10_rsi_range_and_zero_loss (List.replicate 15 (1 : ℚ)) (by simp)).2
     14 (by norm_num) (by simp)⟩

/-- C10 counterexample: a 15-bar series with one tiny loss and one huge gain.
The returned (2-decimal-rounded) RSI entry at index 14 is exactly `100.0`
even though the running average loss there is `1/14 ≠ 0`: the unrounded value
`100 - 100/100001` rounds up to `100.0`.  So "equals 100.0 exactly when the
average loss is 0" fails for the returned array. -/
theorem C10_counterexample :
    (calculate_rsi
      [1, 0, 100000, 100000, 100000, 100000, 100000, 100000, 100000, 100000,
       100000, 100000, 100000, 100000, 100000] 14).rsi.getD 14 none = some 100 ∧
    (rsiAvgLosses
      [1, 0, 100000, 100000, 100000, 100000, 100000, 100000, 100000, 100000,
       100000, 100000, 100000, 100000, 100000] 14).getD 0 0 ≠ 0 := by
  have hch : rsiChanges
      [1, 0, 100000, 100000, 100000, 100000, 100000, 100000, 100000, 100000,
       100000, 100000, 100000, 100000, 100000] =
      [0, -1, 100000, 0, 0, 0, 0, 0, 0, 0, 0, 0, 0, 0, 0] := by
    norm_num [rsiChanges]
  have hgains : rsiGains
      [1, 0, 100000, 100000, 100000, 100000, 100000, 100000, 100000, 100000,
       100000, 100000, 100000, 100000, 100000] =
      [0, 0, 100000, 0, 0, 0, 0, 0, 0, 0, 0, 0, 0, 0, 0] := by
    rw [rsiGains, hch]
    norm_num [max_def]
  have hlosses : rsiLosses
      [1, 0, 100000, 100000, 100000, 100000, 100000, 100000, 100000, 100000,
       100000, 100000, 100000, 100000, 100000] =
      [0, 1, 0, 0, 0, 0, 0, 0, 0, 0, 0, 0, 0, 0, 0] := by
    rw [rsiLosses, hch]
    norm_num [min_def]
  have hsg : rsiSeedGain
      [1, 0, 100000, 100000, 100000, 100000, 100000, 100000, 100000, 100000,
       100000, 100000, 100000, 100000, 100000] 14 = 50000 / 7 := by
    rw [rsiSeedGain, hgains]
    norm_num
  have hsl : rsiSeedLoss
      [1, 0, 100000, 100000, 100000, 100000, 100000, 100000, 100000, 100000,
       100000, 100000, 100000, 100000, 100000] 14 = 1 / 14 := by
    rw [rsiSeedLoss, hlosses]
    norm_num
  constructor
  · have hraw : (rsiRaw
        [1, 0, 100000, 100000, 100000, 100000, 100000, 100000, 100000, 100000,
         100000, 100000, 100000, 100000, 100000] 14).getD 14 none =
        some (100 - 100 / 100001) := by
      rw [rsiRaw_getD_ge _ (by simp) (le_refl 14) (by simp)]
      rw [show (14 : ℕ) - 14 = 0 from rfl, List.getD_cons_zero, hsg, hsl, rsiVal,
        if_neg (by norm_num)]
      norm_num
    rw [calculate_rsi_rsi _ (by simp), getD_map_option, hraw]
    simp only [Option.map_some']
    congr 1
    rw [pround, show (100 - 100 / 100001 : ℚ) * 10 ^ 2 = 10000 - 10000 / 100001 by ring]
    have hfl : ⌊(10000 - 10000 / 100001 : ℚ)⌋ = 9999 := by
      rw [Int.floor_eq_iff]
      norm_num
    rw [rhe, Int.fract, hfl]
    rw [if_neg (by norm_num), if_pos (by norm_num)]
    norm_num
  · rw [rsiAvgLosses, List.getD_cons_zero, hsl]
    norm_num

section BollLemmas

theorem calculate_boll_upper (p : List ℝ) (h : 20 ≤ p.length) :
    (calculate_boll p 20 2).upper =
      (List.replicate 19 (none : Option ℝ) ++
        (List.range' 19 (p.length - 19)).map (fun i =>
          some ((bollWindow p 20 i).sum / 20 + 2 * npStd (bollWindow p 20 i)))).map
        (Option.map (pround 4)) := by
  rw [calculate_boll, if_neg (by omega)]
  norm_num

theorem calculate_boll_middle (p : List ℝ) (h : 20 ≤ p.length) :
    (calculate_boll p 20 2).middle =
      (List.replicate 19 (none : Option ℝ) ++
        (List.range' 19 (p.length - 19)).map (fun i =>
          some ((bollWindow p 20 i).sum / 20))).map (Option.map (pround 4)) := by
  rw [calculate_boll, if_neg (by omega)]
  norm_num

theorem calculate_boll_lower (p : List ℝ) (h : 20 ≤ p.length) :
    (calculate_boll p 20 2).lower =
      (List.replicate 19 (none : Option ℝ) ++
        (List.range' 19 (p.length - 19)).map (fun i =>
          some ((bollWindow p 20 i).sum / 20 - 2 * npStd (bollWindow p 20 i)))).map
        (Option.map (pround 4)) := by
  rw [calculate_boll, if_neg (by omega)]
  norm_num

end BollLemmas

/-- C9: at every defined index the rounded Bollinger bands are ordered,
`lower[i] ≤ middle[i] ≤ upper[i]`: the standard deviation is nonnegative and
rounding is monotone. -/
theorem C9_boll_band_ordering (p : List ℝ) (h20 : 20 ≤ p.length) :
    ∀ i, 19 ≤ i → i < p.length →
      ∃ l m u,
        (calculate_boll p 20 2).lower.getD i none = some l ∧
        (calculate_boll p 20 2).middle.getD i none = some m ∧
        (calculate_boll p 20 2).upper.getD i none = some u ∧
        l ≤ m ∧ m ≤ u := by
  intro i h19 hi
  have hstd : 0 ≤ npStd (bollWindow p 20 i) := Real.sqrt_nonneg _
  refine ⟨pround 4 ((bollWindow p 20 i).sum / 20 - 2 * npStd (bollWindow p 20 i)),
    pround 4 ((bollWindow p 20 i).sum / 20),
    pround 4 ((bollWindow p 20 i).sum / 20 + 2 * npStd (bollWindow p 20 i)),
    ?_, ?_, ?_, ?_, ?_⟩
  · rw [calculate_boll_lower p h20, getD_map_option, padMap_getD' _ h19 hi]
    rfl
  · rw [calculate_boll_middle p h20, getD_map_option, padMap_getD' _ h19 hi]
    rfl
  · rw [calculate_boll_upper p h20, getD_map_option, padMap_getD' _ h19 hi]
    rfl
  · exact pround_mono 4 (by linarith)
  · exact pround_mono 4 (by linarith)

theorem C9_boll_band_ordering_witness :
    20 ≤ (List.replicate 20 (1 : ℝ)).length ∧
    (∃ l m u,
      (calculate_boll (List.replicate 20 (1 : ℝ)) 20 2).lower.getD 19 none = some l ∧
      (calculate_boll (List.replicate 20 (1 : ℝ)) 20 2).middle.getD 19 none = some m ∧
      (calculate_boll (List.replicate 20 (1 : ℝ)) 20 2).upper.getD 19 none = some u ∧
      l ≤ m ∧ m ≤ u) :=
  ⟨by simp,
   C9_boll_band_ordering (List.replicate 20 (1 : ℝ)) (by simp) 19 (by norm_num) (by simp)⟩

/-- C7: the overall label is chosen from the bullish/bearish counters by the
exact threshold chain (strong bull iff `bullish > bearish + 2`, else mild
bull iff `bullish > bearish`, strong bear iff `bearish > bullish + 2`, else
mild bear iff `bearish > bullish`, else neutral); and in the concrete
scenario MACD `golden_cross` (+2), KDJ `oversold_cross` (+2), RSI `oversold`
(+1) with the moving-average block not firing, the counters are 5/0 and the
label is strong bull (`强烈看多`). -/
theorem C7_aggregation_thresholds :
    (∀ (macd : MacdResult) (kdj : KdjResult) (rsi : RsiResult) (boll : BollResult)
        (ma5 ma10 ma20 : List (Option ℚ)) (closes : List ℚ) (r : LatestSignals),
      getLatestSignals macd kdj rsi boll ma5 ma10 ma20 closes = .ok r →
        r.overall =
          if r.bearishCount + 2 < r.bullishCount then "强烈看多"
          else if r.bearishCount < r.bullishCount then "偏多"
          else if r.bullishCount + 2 < r.bearishCount then "强烈看空"
          else if r.bullishCount < r.bearishCount then "偏空"
          else "中性") ∧
    (∀ (macd : MacdResult) (kdj : KdjResult) (rsi : RsiResult) (boll : BollResult)
        (ma5 ma10 ma20 : List (Option ℚ)) (closes : List ℚ),
      lastStr macd.signal = "golden_cross" →
      lastStr kdj.signal = "oversold_cross" →
      lastStr rsi.signal = "oversold" →
      (closes.length = 0 ∨ ma5.getLast? = some none) →
      (getLatestSignals macd kdj rsi boll ma5 ma10 ma20 closes).map
        (fun r => (r.bullishCount, r.bearishCount, r.overall)) =
        .ok (5, 0, "强烈看多")) := by
  constructor
  · intro macd kdj rsi boll ma5 ma10 ma20 closes r h
    rw [getLatestSignals] at h
    cases hma : maScore ma5 ma10 closes with
    | error e =>
      rw [hma, exceptBindErr] at h
      exact Except.noConfusion h
    | ok mab =>
      rw [hma, exceptBindOk] at h
      injection h with h2
      rw [← h2]
  · intro macd kdj rsi boll ma5 ma10 ma20 closes hm hk hr hma
    have hmab : maScore ma5 ma10 closes = .ok ([], 0, 0) := by
      by_cases h0 : closes.length = 0
      · rw [maScore, if_pos h0]
      · rcases hma with hc | h5
        · exact absurd hc h0
        · rw [maScore, if_neg h0, h5]
    rw [getLatestSignals, hmab, exceptBindOk, hm, hk, hr]
    rfl

theorem C7_aggregation_thresholds_witness :
    (getLatestSignals ⟨[], [], [], ["golden_cross"]⟩ ⟨[], [], [], ["oversold_cross"]⟩
        ⟨[some 25], ["oversold"]⟩ ⟨[], [], [], ["neutral"]⟩ [] [] [] []).map
      (fun r => (r.bullishCount, r.bearishCount, r.overall)) = .ok (5, 0, "强烈看多") :=
  C7_aggregation_thresholds.2 ⟨[], [], [], ["golden_cross"]⟩ ⟨[], [], [], ["oversold_cross"]⟩
    ⟨[some 25], ["oversold"]⟩ ⟨[], [], [], ["neutral"]⟩ [] [] [] []
    rfl rfl rfl (Or.inl rfl)
